import Mathlib

/-!
Shallow embedding of the rate-reconstruction core of the js-traffic-history
repository (Go), together with theorems settling the claims of its
specification.

Modelling conventions:
- Go time.Time values are epoch nanoseconds, modelled as natural numbers
  (all timestamps the program handles are after the zero time, where
  Go's Truncate and division round the same way as Nat division).
- Go time.Duration values are nanosecond counts, modelled as naturals.
- Go float64 arithmetic on rates and throughputs is modelled with exact
  rationals; all claim-relevant float operations (division by a positive
  constant, comparison, max, linear interpolation at the claimed inputs)
  are exact in this model.
- Go math.Sqrt is modelled by a rational square-root approximation ratSqrt;
  no claim constrains the standard-deviation fields it feeds.
-/

namespace JsTraffic

/-- MessageData (analyzer.go): stream name, sequence number, publish
timestamp in epoch nanoseconds, payload size in bytes. -/
structure MessageData where
  StreamName : String
  Sequence : ℕ
  Timestamp : ℕ
  Size : ℕ
deriving Repr, DecidableEq

/-- Go time.Time.Truncate(g): round down to a multiple of g nanoseconds
since the zero time; for g = 0 (and negative g) Go returns t unchanged. -/
def truncTime (t g : ℕ) : ℕ := if g = 0 then t else t / g * g

/-- In-place update of a slice element, as in buckets[idx].Count++ etc.
Out-of-range indices leave the list unchanged (the source clamps all
indices into range before updating, so this case is never exercised). -/
def updateAt (l : List α) (i : ℕ) (f : α → α) : List α :=
  match l, i with
  | [], _ => []
  | x :: xs, 0 => f x :: xs
  | x :: xs, n + 1 => x :: updateAt xs n f

theorem updateAt_length (l : List α) (i : ℕ) (f : α → α) :
    (updateAt l i f).length = l.length := by
  induction l generalizing i with
  | nil => rfl
  | cons x xs ih =>
    cases i with
    | zero => rfl
    | succ n => simpa [updateAt] using ih n

theorem sum_map_updateAt {α : Type} (g : α → ℕ) (d : ℕ) (f : α → α)
    (hf : ∀ x, g (f x) = g x + d) :
    ∀ (l : List α) (i : ℕ), i < l.length →
      ((updateAt l i f).map g).sum = (l.map g).sum + d := by
  intro l
  induction l with
  | nil => intro i hi; simp at hi
  | cons x xs ih =>
    intro i hi
    cases i with
    | zero => simp [updateAt, hf x]; ring
    | succ n =>
      have hn : n < xs.length := by simpa using hi
      simp only [updateAt, List.map_cons, List.sum_cons, ih n hn]
      ring

theorem mem_updateAt_pred {α : Type} (p : α → Prop) (f : α → α)
    (hf : ∀ x, p x → p (f x)) :
    ∀ (l : List α) (i : ℕ), (∀ x ∈ l, p x) →
      ∀ y ∈ updateAt l i f, p y := by
  intro l
  induction l with
  | nil => intro i _ y hy; simp [updateAt] at hy
  | cons x xs ih =>
    intro i hl y hy
    cases i with
    | zero =>
      simp only [updateAt, List.mem_cons] at hy
      rcases hy with hy | hy
      · exact hy ▸ hf x (hl x (by simp))
      · exact hl y (by simp [hy])
    | succ n =>
      simp only [updateAt, List.mem_cons] at hy
      rcases hy with hy | hy
      · exact hy ▸ hl x (by simp)
      · exact ih n (fun z hz => hl z (by simp [hz])) y hy

theorem map_updateAt_of_fix {α β : Type} (g : α → β) (f : α → α)
    (hf : ∀ x, g (f x) = g x) :
    ∀ (l : List α) (i : ℕ), (updateAt l i f).map g = l.map g := by
  intro l
  induction l with
  | nil => intro i; rfl
  | cons x xs ih =>
    intro i
    cases i with
    | zero => simp [updateAt, hf x]
    | succ n => simp [updateAt, ih n]

/-- RateBucket (histogram.go): one fixed-width time slice with message
count, byte total and the derived per-second rates. -/
structure RateBucket where
  Start : ℕ := 0
  End : ℕ := 0
  Count : ℕ := 0
  Bytes : ℕ := 0
  Rate : ℚ := 0
  Throughput : ℚ := 0
deriving Repr, DecidableEq

/-- RateStatistics (histogram.go): aggregate statistics over a bucket
sequence. -/
structure RateStatistics where
  TotalMessages : ℕ := 0
  TotalBytes : ℕ := 0
  TotalDuration : ℕ := 0
  AvgRate : ℚ := 0
  P50Rate : ℚ := 0
  P90Rate : ℚ := 0
  P99Rate : ℚ := 0
  P999Rate : ℚ := 0
  MinRate : ℚ := 0
  MaxRate : ℚ := 0
  StdDevRate : ℚ := 0
  AvgThroughput : ℚ := 0
  P50Throughput : ℚ := 0
  P90Throughput : ℚ := 0
  P99Throughput : ℚ := 0
  P999Throughput : ℚ := 0
  MinThroughput : ℚ := 0
  MaxThroughput : ℚ := 0
  StdDevTput : ℚ := 0
  ActiveBuckets : ℕ := 0
  TotalBuckets : ℕ := 0

/-- RateHistogram (histogram.go): chronological buckets, the granularity
in nanoseconds, and summary statistics. -/
structure RateHistogram where
  Buckets : List RateBucket := []
  Granularity : ℕ := 0
  Stats : RateStatistics := {}

/-- percentileFloat64 (histogram.go): p-th percentile of a sorted slice.
Go int(idx) truncates toward zero; at every call site p is in [0, 1], so
idx is nonnegative and truncation coincides with the floor used here. -/
def percentileFloat64 (sorted : List ℚ) (p : ℚ) : ℚ :=
  if sorted.length = 0 then 0
  else if sorted.length = 1 then sorted.getD 0 0
  else
    let idx : ℚ := p * ((sorted.length : ℚ) - 1)
    let lower : ℕ := (⌊idx⌋).toNat
    let upper : ℕ := lower + 1
    if sorted.length ≤ upper then sorted.getD (sorted.length - 1) 0
    else
      let weight : ℚ := idx - (lower : ℚ)
      sorted.getD lower 0 * (1 - weight) + sorted.getD upper 0 * weight

/-- Insertion of one value into an ascending list, for sortQ. -/
def insertQ (x : ℚ) : List ℚ → List ℚ
  | [] => [x]
  | y :: ys => if x ≤ y then x :: y :: ys else y :: insertQ x ys

/-- Ascending sort of a slice copy, modelling sort.Float64s. -/
def sortQ (l : List ℚ) : List ℚ := l.foldr insertQ []

/-- Rational stand-in for Go math.Sqrt, used only for the
standard-deviation statistics fields, which no claim constrains;
it is a floor square-root approximation, exact on perfect squares. -/
def ratSqrt (q : ℚ) : ℚ := (Nat.sqrt (q.num.toNat * q.den) : ℚ) / (q.den : ℚ)

/-- calculateRateStats (histogram.go): statistics from rate buckets. -/
def calculateRateStats (buckets : List RateBucket) (totalMessages : ℕ)
    (totalBytes : ℕ) (totalDuration : ℕ) : RateStatistics :=
  match buckets with
  | [] => {}
  | b0 :: _ =>
    let n : ℕ := buckets.length
    let rates : List ℚ := buckets.map (·.Rate)
    let throughputs : List ℚ := buckets.map (·.Throughput)
    let sumRate : ℚ := rates.sum
    let sumTput : ℚ := throughputs.sum
    let minRate : ℚ := buckets.foldl (fun a b => min a b.Rate) b0.Rate
    let maxRate : ℚ := buckets.foldl (fun a b => max a b.Rate) b0.Rate
    let minTput : ℚ := buckets.foldl (fun a b => min a b.Throughput) b0.Throughput
    let maxTput : ℚ := buckets.foldl (fun a b => max a b.Throughput) b0.Throughput
    let avgRate : ℚ := sumRate / (n : ℚ)
    let avgTput : ℚ := sumTput / (n : ℚ)
    let sortedRates := sortQ rates
    let sortedTputs := sortQ throughputs
    { TotalMessages := totalMessages
      TotalBytes := totalBytes
      TotalDuration := totalDuration
      TotalBuckets := n
      ActiveBuckets := (buckets.filter (fun b => 0 < b.Count)).length
      MinRate := minRate
      MaxRate := maxRate
      MinThroughput := minTput
      MaxThroughput := maxTput
      AvgRate := avgRate
      AvgThroughput := avgTput
      P50Rate := percentileFloat64 sortedRates (1/2)
      P90Rate := percentileFloat64 sortedRates (9/10)
      P99Rate := percentileFloat64 sortedRates (99/100)
      P999Rate := percentileFloat64 sortedRates (999/1000)
      P50Throughput := percentileFloat64 sortedTputs (1/2)
      P90Throughput := percentileFloat64 sortedTputs (9/10)
      P99Throughput := percentileFloat64 sortedTputs (99/100)
      P999Throughput := percentileFloat64 sortedTputs (999/1000)
      StdDevRate := ratSqrt ((rates.map (fun r => (r - avgRate) ^ 2)).sum / (n : ℚ))
      StdDevTput := ratSqrt ((throughputs.map (fun t => (t - avgTput) ^ 2)).sum / (n : ℚ)) }

/-- Clamped bucket index for a message timestamp: floor((t - start)/g)
clamped into [0, numBuckets-1].  Nat subtraction already yields 0 when
t < start, matching the clamp of negative indices in the source. -/
def bucketIndex (numBuckets : ℕ) (startTime g t : ℕ) : ℕ :=
  let idx := (t - startTime) / g
  if numBuckets ≤ idx then numBuckets - 1 else idx

/-- One iteration of the counting loop of BuildRateHistogram: the message
increments its bucket count and adds its size to the bucket bytes. -/
def countMessage (startTime g : ℕ) (bs : List RateBucket) (m : MessageData) :
    List RateBucket :=
  updateAt bs (bucketIndex bs.length startTime g m.Timestamp)
    (fun b => { b with Count := b.Count + 1, Bytes := b.Bytes + m.Size })

/-- Number of buckets of BuildRateHistogram: the span from the truncated
minimum timestamp to the truncated maximum plus one granularity, divided
by the granularity, with the zero case forced to one bucket. -/
def numBucketsOf (minTime maxTime g : ℕ) : ℕ :=
  let startTime := truncTime minTime g
  let endTime := truncTime maxTime g + g
  let numBuckets0 := (endTime - startTime) / g
  if numBuckets0 = 0 then 1 else numBuckets0

/-- Initial bucket slice of BuildRateHistogram: numBuckets adjacent empty
buckets of width g starting at startTime. -/
def initBuckets (startTime g numBuckets : ℕ) : List RateBucket :=
  (List.range numBuckets).map fun i =>
    { Start := startTime + i * g, End := startTime + i * g + g }

/-- Final loop of BuildRateHistogram: every bucket's Rate and Throughput
are its count and bytes divided by the granularity in seconds. -/
def applyRates (g : ℕ) (bs : List RateBucket) : List RateBucket :=
  let gsecs : ℚ := (g : ℚ) / 1000000000
  bs.map fun b =>
    { b with Rate := (b.Count : ℚ) / gsecs
             Throughput := (b.Bytes : ℚ) / gsecs }

/-- BuildRateHistogram (histogram.go): rate histogram from message data.
The total byte count is accumulated inside the counting loop in the
source; it equals the sum of the message sizes.  For g = 0 the Go
original panics on division by zero before building any bucket; no claim
concerns that case. -/
def BuildRateHistogram (messages : List MessageData) (granularity : ℕ) :
    RateHistogram :=
  match messages with
  | [] => { Granularity := granularity }
  | m0 :: _ =>
    let minTime := messages.foldl (fun a m => min a m.Timestamp) m0.Timestamp
    let maxTime := messages.foldl (fun a m => max a m.Timestamp) m0.Timestamp
    let startTime := truncTime minTime granularity
    let endTime := truncTime maxTime granularity + granularity
    let buckets := applyRates granularity
      (messages.foldl (countMessage startTime granularity)
        (initBuckets startTime granularity
          (numBucketsOf minTime maxTime granularity)))
    { Buckets := buckets
      Granularity := granularity
      Stats := calculateRateStats buckets messages.length
        ((messages.map (·.Size)).sum) (endTime - startTime) }

namespace Gui

/-- StreamBucketData (current repository version, field shape fixed by the
JSONStreamBucketData mirror in the GUI server): one source stream's
contribution to a bucket. -/
structure StreamBucketData where
  Count : ℕ := 0
  SeqCount : ℕ := 0
  Bytes : ℕ := 0
deriving Repr, DecidableEq

/-- RateBucket (current repository version, field shape fixed by the
JSONBucket mirror in the GUI server): a time slice carrying both the
observed count/rate and the sequence-interpolated SeqCount/SeqRate, plus
an optional per-stream breakdown, modelled as an association list. -/
structure RateBucket where
  Start : ℕ := 0
  End : ℕ := 0
  Count : ℕ := 0
  SeqCount : ℕ := 0
  Bytes : ℕ := 0
  Rate : ℚ := 0
  SeqRate : ℚ := 0
  Throughput : ℚ := 0
  MinMsgSize : ℕ := 0
  MaxMsgSize : ℕ := 0
  SumMsgSize : ℕ := 0
  PerStream : List (String × StreamBucketData) := []
deriving Repr, DecidableEq

/-- RateStatistics (current repository version, field shape fixed by the
JSONStats mirror in the GUI server). -/
structure RateStatistics where
  TotalMessages : ℕ := 0
  TotalBytes : ℕ := 0
  StartTime : ℕ := 0
  EndTime : ℕ := 0
  TotalDuration : ℕ := 0
  AvgRate : ℚ := 0
  P50Rate : ℚ := 0
  P90Rate : ℚ := 0
  P99Rate : ℚ := 0
  P999Rate : ℚ := 0
  MinRate : ℚ := 0
  MaxRate : ℚ := 0
  StdDevRate : ℚ := 0
  AvgSeqRate : ℚ := 0
  P50SeqRate : ℚ := 0
  P90SeqRate : ℚ := 0
  P99SeqRate : ℚ := 0
  P999SeqRate : ℚ := 0
  MinSeqRate : ℚ := 0
  MaxSeqRate : ℚ := 0
  StdDevSeqRate : ℚ := 0
  AvgThroughput : ℚ := 0
  P50Throughput : ℚ := 0
  P90Throughput : ℚ := 0
  P99Throughput : ℚ := 0
  P999Throughput : ℚ := 0
  MinThroughput : ℚ := 0
  MaxThroughput : ℚ := 0
  StdDevTput : ℚ := 0
  AvgMsgSize : ℚ := 0
  P50MsgSize : ℚ := 0
  P90MsgSize : ℚ := 0
  P99MsgSize : ℚ := 0
  P999MsgSize : ℚ := 0
  MinMsgSize : ℕ := 0
  MaxMsgSize : ℕ := 0
  StdDevMsgSize : ℚ := 0
  FirstSeq : ℕ := 0
  LastSeq : ℕ := 0
  SeqRate : ℚ := 0
  ActiveBuckets : ℕ := 0
  TotalBuckets : ℕ := 0

/-- RateHistogram (current repository version). -/
structure RateHistogram where
  Buckets : List RateBucket := []
  Granularity : ℕ := 0
  Stats : RateStatistics := {}

/-- Modelled from the spec: CalculateStatsFromBuckets, whose defining file
is not under src (the GUI server in src is its caller).  Per section 4.2
of the spec it computes RateStatistics purely as a function of the given
bucket slice: for each rate-like metric the mean, R-7 percentiles over a
sorted copy, population standard deviation, min and max; active versus
total buckets; totals summed from the slice.  Message-size percentiles
and the sequence-number fields are not derivable from bucket aggregates,
so they degrade gracefully to zero as the spec directs. -/
def CalculateStatsFromBuckets (buckets : List RateBucket) : RateStatistics :=
  match buckets with
  | [] => {}
  | b0 :: _ =>
    let n : ℕ := buckets.length
    let rates : List ℚ := buckets.map (·.Rate)
    let seqRates : List ℚ := buckets.map (·.SeqRate)
    let throughputs : List ℚ := buckets.map (·.Throughput)
    let avgRate : ℚ := rates.sum / (n : ℚ)
    let avgSeqRate : ℚ := seqRates.sum / (n : ℚ)
    let avgTput : ℚ := throughputs.sum / (n : ℚ)
    let sortedRates := sortQ rates
    let sortedSeqRates := sortQ seqRates
    let sortedTputs := sortQ throughputs
    let startTime := b0.Start
    let endTime := (buckets.getLastD b0).End
    { TotalMessages := (buckets.map (·.Count)).sum
      TotalBytes := (buckets.map (·.Bytes)).sum
      StartTime := startTime
      EndTime := endTime
      TotalDuration := endTime - startTime
      TotalBuckets := n
      ActiveBuckets := (buckets.filter (fun b => 0 < b.Count)).length
      AvgRate := avgRate
      AvgSeqRate := avgSeqRate
      AvgThroughput := avgTput
      MinRate := buckets.foldl (fun a b => min a b.Rate) b0.Rate
      MaxRate := buckets.foldl (fun a b => max a b.Rate) b0.Rate
      MinSeqRate := buckets.foldl (fun a b => min a b.SeqRate) b0.SeqRate
      MaxSeqRate := buckets.foldl (fun a b => max a b.SeqRate) b0.SeqRate
      MinThroughput := buckets.foldl (fun a b => min a b.Throughput) b0.Throughput
      MaxThroughput := buckets.foldl (fun a b => max a b.Throughput) b0.Throughput
      P50Rate := percentileFloat64 sortedRates (1/2)
      P90Rate := percentileFloat64 sortedRates (9/10)
      P99Rate := percentileFloat64 sortedRates (99/100)
      P999Rate := percentileFloat64 sortedRates (999/1000)
      P50SeqRate := percentileFloat64 sortedSeqRates (1/2)
      P90SeqRate := percentileFloat64 sortedSeqRates (9/10)
      P99SeqRate := percentileFloat64 sortedSeqRates (99/100)
      P999SeqRate := percentileFloat64 sortedSeqRates (999/1000)
      P50Throughput := percentileFloat64 sortedTputs (1/2)
      P90Throughput := percentileFloat64 sortedTputs (9/10)
      P99Throughput := percentileFloat64 sortedTputs (99/100)
      P999Throughput := percentileFloat64 sortedTputs (999/1000)
      StdDevRate := ratSqrt ((rates.map (fun r => (r - avgRate) ^ 2)).sum / (n : ℚ))
      StdDevSeqRate := ratSqrt ((seqRates.map (fun r => (r - avgSeqRate) ^ 2)).sum / (n : ℚ))
      StdDevTput := ratSqrt ((throughputs.map (fun t => (t - avgTput) ^ 2)).sum / (n : ℚ)) }

/-- Keep decision of filterHistogramByTime: a bucket is skipped when its
End is strictly before the window start or its Start strictly after the
window end. -/
def keepBucket (startTime endTime : Option ℕ) (b : RateBucket) : Bool :=
  (match startTime with
   | some ws => !decide (b.End < ws)
   | none => true) &&
  (match endTime with
   | some we => !decide (we < b.Start)
   | none => true)

/-- filterHistogramByTime (GUI server): buckets within the given time
range, with statistics recalculated for the filtered range.  The nil
histogram receiver case is not modelled; no claim concerns it. -/
def filterHistogramByTime (hist : RateHistogram)
    (startTime endTime : Option ℕ) : RateHistogram :=
  match startTime, endTime with
  | none, none => hist
  | _, _ =>
    let filtered := hist.Buckets.filter (keepBucket startTime endTime)
    if filtered = [] then
      { Buckets := filtered, Granularity := hist.Granularity, Stats := {} }
    else
      { Buckets := filtered
        Granularity := hist.Granularity
        Stats := CalculateStatsFromBuckets filtered }

/-- Accumulation of one source-stream entry into a per-stream breakdown,
as the PerStream merge loop of downsampleHistogram does: a missing entry
starts from the zero value. -/
def addStreamData (l : List (String × StreamBucketData)) (name : String)
    (d : StreamBucketData) : List (String × StreamBucketData) :=
  match l with
  | [] => [(name, d)]
  | (n, e) :: rest =>
    if n = name then
      (n, { Count := e.Count + d.Count
            SeqCount := e.SeqCount + d.SeqCount
            Bytes := e.Bytes + d.Bytes }) :: rest
    else
      (n, e) :: addStreamData rest name d

/-- Per-stream map merge used while aggregating a run of buckets. -/
def mergePerStream (a b : List (String × StreamBucketData)) :
    List (String × StreamBucketData) :=
  b.foldl (fun acc nd => addStreamData acc nd.1 nd.2) a

/-- One aggregation step of the inner loop of downsampleHistogram. -/
def aggStep (useAverage : Bool) (agg b : RateBucket) : RateBucket :=
  let agg := { agg with
    Count := agg.Count + b.Count
    SeqCount := agg.SeqCount + b.SeqCount
    Bytes := agg.Bytes + b.Bytes
    PerStream := mergePerStream agg.PerStream b.PerStream }
  if useAverage then agg
  else { agg with
    Rate := max agg.Rate b.Rate
    SeqRate := max agg.SeqRate b.SeqRate
    Throughput := max agg.Throughput b.Throughput }

/-- Aggregation of one run of adjacent buckets in downsampleHistogram:
sums for totals, max (peak-preserving) or true average for the rates. -/
def mergeRun (useAverage : Bool) (run : List RateBucket) : RateBucket :=
  let init : RateBucket :=
    { Start := (run.headD {}).Start, End := (run.getLastD {}).End }
  let agg := run.foldl (aggStep useAverage) init
  if useAverage then
    let duration : ℚ := ((agg.End - agg.Start : ℕ) : ℚ) / 1000000000
    if 0 < duration then
      { agg with
        Rate := (agg.Count : ℚ) / duration
        SeqRate := (agg.SeqCount : ℚ) / duration
        Throughput := (agg.Bytes : ℚ) / duration }
    else agg
  else agg

/-- Recursion of chunkList on a fuel bound: each loop step of the Go
original consumes at least one bucket when factor is at least 1, so a
fuel equal to the list length is enough. -/
def chunkListGo (factor : ℕ) : ℕ → List α → List (List α)
  | _, [] => []
  | 0, _ :: _ => []
  | fuel + 1, x :: xs => (x :: xs).take factor :: chunkListGo factor fuel ((x :: xs).drop factor)

/-- Split of the bucket slice into runs of `factor` adjacent buckets, as
the step-`factor` outer loop of downsampleHistogram visits them.  The Go
original divides by maxBuckets before this loop and so panics when
maxBuckets = 0; the factor = 0 guard here is never exercised by a run
that returns. -/
def chunkList (factor : ℕ) (l : List α) : List (List α) :=
  if factor = 0 then [] else chunkListGo factor l.length l

/-- downsampleHistogram (GUI server): reduce the bucket count to at most
maxBuckets by merging runs of adjacent buckets; statistics are preserved
from the original histogram. -/
def downsampleHistogram (hist : RateHistogram) (maxBuckets : ℕ)
    (useAverage : Bool) : RateHistogram :=
  if hist.Buckets.length ≤ maxBuckets then hist
  else
    let buckets := hist.Buckets
    let factor := (buckets.length + maxBuckets - 1) / maxBuckets
    { Buckets := (chunkList factor buckets).map (mergeRun useAverage)
      Granularity := hist.Granularity * factor
      Stats := hist.Stats }

/-- extractStreamHistogram (GUI server): single-stream histogram obtained
from the combined histogram's per-stream breakdown.  The nil receiver
case is not modelled; no claim concerns it. -/
def extractStreamHistogram (combined : RateHistogram) (streamName : String) :
    RateHistogram :=
  let granularitySecs : ℚ := (combined.Granularity : ℚ) / 1000000000
  let buckets := combined.Buckets.map fun b =>
    match b.PerStream.lookup streamName with
    | none => ({ Start := b.Start, End := b.End } : RateBucket)
    | some streamData =>
      { Start := b.Start
        End := b.End
        Count := streamData.Count
        SeqCount := streamData.SeqCount
        Bytes := streamData.Bytes
        Rate := (streamData.Count : ℚ) / granularitySecs
        SeqRate := (streamData.SeqCount : ℚ) / granularitySecs
        Throughput := (streamData.Bytes : ℚ) / granularitySecs }
  { Buckets := buckets
    Granularity := combined.Granularity
    Stats := CalculateStatsFromBuckets buckets }

/-- One counting step of the sequence-aware builder: as in the older
builder under src, the message increments its bucket's observed count
and bytes; the interpolated total SeqCount starts from the observed
count, so it is incremented alongside. -/
def countMessageSeq (startTime g : ℕ) (bs : List RateBucket)
    (m : MessageData) : List RateBucket :=
  updateAt bs (bucketIndex bs.length startTime g m.Timestamp)
    (fun b => { b with
      Count := b.Count + 1
      SeqCount := b.SeqCount + 1
      Bytes := b.Bytes + m.Size })

/-- Modelled from the spec: attribution of the missing sequence numbers
between two consecutive surviving messages.  Per section 4.1 the
s2 - s1 - 1 missing messages are assumed uniformly distributed in time
across (t1, t2); each is placed at its interpolated timestamp and
increments the SeqCount of the bucket containing it (clamped like every
other bucket index). -/
def addGapMessages (startTime g : ℕ) (bs : List RateBucket)
    (m1 m2 : MessageData) : List RateBucket :=
  let gap := m2.Sequence - m1.Sequence - 1
  (List.range gap).foldl
    (fun bs j =>
      let tj := m1.Timestamp +
        (m2.Timestamp - m1.Timestamp) * (j + 1) / (m2.Sequence - m1.Sequence)
      updateAt bs (bucketIndex bs.length startTime g tj)
        (fun b => { b with SeqCount := b.SeqCount + 1 }))
    bs

/-- Modelled from the spec: the sequence-aware rate histogram builder of
the current repository version, whose defining file is not under src
(src holds two older builders without sequence interpolation, and the
GUI server consumes this one's output).  Bucket layout, observed counts
and clamping follow section 4.1 exactly as in the older builders; each
bucket's SeqCount additionally receives its share of the sequence gaps
between consecutive surviving messages; SeqRate = SeqCount divided by
the granularity in seconds.  Statistics are computed from the finished
bucket slice.  The single-source builder carries no per-stream map. -/
def BuildRateHistogramSeq (messages : List MessageData) (granularity : ℕ) :
    RateHistogram :=
  match messages with
  | [] => { Granularity := granularity }
  | m0 :: rest =>
    let minTime := messages.foldl (fun a m => min a m.Timestamp) m0.Timestamp
    let maxTime := messages.foldl (fun a m => max a m.Timestamp) m0.Timestamp
    let startTime := truncTime minTime granularity
    let endTime := truncTime maxTime granularity + granularity
    let numBuckets0 := (endTime - startTime) / granularity
    let numBuckets := if numBuckets0 = 0 then 1 else numBuckets0
    let init : List RateBucket := (List.range numBuckets).map fun i =>
      { Start := startTime + i * granularity
        End := startTime + i * granularity + granularity }
    let counted := messages.foldl (countMessageSeq startTime granularity) init
    let withGaps := (messages.zip rest).foldl
      (fun bs pr => addGapMessages startTime granularity bs pr.1 pr.2) counted
    let gsecs : ℚ := (granularity : ℚ) / 1000000000
    let withRates := withGaps.map fun b =>
      { b with
        Rate := (b.Count : ℚ) / gsecs
        SeqRate := (b.SeqCount : ℚ) / gsecs
        Throughput := (b.Bytes : ℚ) / gsecs }
    { Buckets := withRates
      Granularity := granularity
      Stats := CalculateStatsFromBuckets withRates }

end Gui

theorem bucketIndex_lt (n s g t : ℕ) (hn : 0 < n) : bucketIndex n s g t < n := by
  dsimp [bucketIndex]
  split <;> omega

theorem countMessage_length (s g : ℕ) (bs : List RateBucket) (m : MessageData) :
    (countMessage s g bs m).length = bs.length :=
  updateAt_length ..

theorem foldl_countMessage_sums (s g : ℕ) (msgs : List MessageData) :
    ∀ bs : List RateBucket, bs ≠ [] →
      ((msgs.foldl (countMessage s g) bs).map (·.Count)).sum
          = (bs.map (·.Count)).sum + msgs.length
      ∧ ((msgs.foldl (countMessage s g) bs).map (·.Bytes)).sum
          = (bs.map (·.Bytes)).sum + (msgs.map (·.Size)).sum
      ∧ (msgs.foldl (countMessage s g) bs).length = bs.length := by
  induction msgs with
  | nil => intro bs _; simp
  | cons m ms ih =>
    intro bs hbs
    have hpos : 0 < bs.length := List.length_pos.mpr hbs
    have hlen : (countMessage s g bs m).length = bs.length :=
      countMessage_length ..
    have hne : countMessage s g bs m ≠ [] := by
      intro h
      rw [h] at hlen
      simp at hlen
      omega
    obtain ⟨h1, h2, h3⟩ := ih (countMessage s g bs m) hne
    have hidx : bucketIndex bs.length s g m.Timestamp < bs.length :=
      bucketIndex_lt _ _ _ _ hpos
    have hc : ((countMessage s g bs m).map (·.Count)).sum
        = (bs.map (·.Count)).sum + 1 :=
      sum_map_updateAt (·.Count) 1 _ (fun _ => rfl) bs _ hidx
    have hb : ((countMessage s g bs m).map (·.Bytes)).sum
        = (bs.map (·.Bytes)).sum + m.Size :=
      sum_map_updateAt (·.Bytes) m.Size _ (fun _ => rfl) bs _ hidx
    refine ⟨?_, ?_, ?_⟩
    · rw [List.foldl_cons, h1, hc]; simp; omega
    · rw [List.foldl_cons, h2, hb]; simp; omega
    · rw [List.foldl_cons, h3, hlen]

theorem foldl_countMessage_startEnd (s g : ℕ) (msgs : List MessageData) :
    ∀ bs : List RateBucket,
      (msgs.foldl (countMessage s g) bs).map (fun b => (b.Start, b.End))
        = bs.map (fun b => (b.Start, b.End)) := by
  induction msgs with
  | nil => intro bs; rfl
  | cons m ms ih =>
    intro bs
    rw [List.foldl_cons, ih]
    exact map_updateAt_of_fix (fun b => (b.Start, b.End))
      (fun b => { b with Count := b.Count + 1, Bytes := b.Bytes + m.Size })
      (fun _ => rfl) bs _

theorem numBucketsOf_pos (minTime maxTime g : ℕ) :
    0 < numBucketsOf minTime maxTime g := by
  simp only [numBucketsOf]
  split
  · omega
  · next h => exact Nat.pos_of_ne_zero h

theorem initBuckets_length (s g n : ℕ) : (initBuckets s g n).length = n := by
  simp [initBuckets]

theorem initBuckets_ne_nil (s g n : ℕ) (hn : 0 < n) : initBuckets s g n ≠ [] := by
  intro h
  have := initBuckets_length s g n
  rw [h] at this
  simp at this
  omega

theorem initBuckets_sum_count (s g n : ℕ) :
    ((initBuckets s g n).map (·.Count)).sum = 0 := by
  rw [initBuckets, List.map_map]
  exact List.sum_eq_zero (by intro x hx; simp at hx; obtain ⟨i, _, rfl⟩ := hx; rfl)

theorem initBuckets_sum_bytes (s g n : ℕ) :
    ((initBuckets s g n).map (·.Bytes)).sum = 0 := by
  rw [initBuckets, List.map_map]
  exact List.sum_eq_zero (by intro x hx; simp at hx; obtain ⟨i, _, rfl⟩ := hx; rfl)

theorem applyRates_map_count (g : ℕ) (bs : List RateBucket) :
    (applyRates g bs).map (·.Count) = bs.map (·.Count) := by
  rw [applyRates, List.map_map]
  rfl

theorem applyRates_map_bytes (g : ℕ) (bs : List RateBucket) :
    (applyRates g bs).map (·.Bytes) = bs.map (·.Bytes) := by
  rw [applyRates, List.map_map]
  rfl

theorem applyRates_map_startEnd (g : ℕ) (bs : List RateBucket) :
    (applyRates g bs).map (fun b => (b.Start, b.End))
      = bs.map (fun b => (b.Start, b.End)) := by
  rw [applyRates, List.map_map]
  rfl

theorem applyRates_length (g : ℕ) (bs : List RateBucket) :
    (applyRates g bs).length = bs.length := by
  simp [applyRates]

/-- C1: for every message list and granularity g > 0, BuildRateHistogram
conserves totals: the bucket counts sum to the number of messages and the
bucket bytes sum to the total of the message sizes (each message lands in
exactly one bucket, with out-of-range indices clamped into range). -/
theorem C1_buildRateHistogram_conserves_totals
    (messages : List MessageData) (g : ℕ) (_hg : 0 < g) :
    (((BuildRateHistogram messages g).Buckets).map (·.Count)).sum
        = messages.length
    ∧ (((BuildRateHistogram messages g).Buckets).map (·.Bytes)).sum
        = (messages.map (·.Size)).sum := by
  clear _hg
  match messages with
  | [] => simp [BuildRateHistogram]
  | m0 :: rest =>
    show ((applyRates g _).map (·.Count)).sum = _
      ∧ ((applyRates g _).map (·.Bytes)).sum = _
    rw [applyRates_map_count, applyRates_map_bytes]
    have hne := initBuckets_ne_nil
      (truncTime ((m0 :: rest).foldl (fun a m => min a m.Timestamp) m0.Timestamp) g) g
      (numBucketsOf ((m0 :: rest).foldl (fun a m => min a m.Timestamp) m0.Timestamp)
        ((m0 :: rest).foldl (fun a m => max a m.Timestamp) m0.Timestamp) g)
      (numBucketsOf_pos _ _ _)
    obtain ⟨h1, h2, _⟩ := foldl_countMessage_sums
      (truncTime ((m0 :: rest).foldl (fun a m => min a m.Timestamp) m0.Timestamp) g)
      g (m0 :: rest) _ hne
    rw [h1, h2, initBuckets_sum_count, initBuckets_sum_bytes]
    simp

theorem C1_buildRateHistogram_conserves_totals_witness :
    (0 : ℕ) < 2
    ∧ (((BuildRateHistogram [⟨"s", 1, 0, 5⟩, ⟨"s", 2, 3, 7⟩] 2).Buckets).map
        (·.Count)).sum = 2
    ∧ (((BuildRateHistogram [⟨"s", 1, 0, 5⟩, ⟨"s", 2, 3, 7⟩] 2).Buckets).map
        (·.Bytes)).sum = 12 := by
  have h := C1_buildRateHistogram_conserves_totals
    [⟨"s", 1, 0, 5⟩, ⟨"s", 2, 3, 7⟩] 2 (by decide)
  exact ⟨by decide, by simpa using h.1, by simpa using h.2⟩

theorem foldl_countMessage_length (s g : ℕ) (msgs : List MessageData) :
    ∀ bs : List RateBucket,
      (msgs.foldl (countMessage s g) bs).length = bs.length := by
  induction msgs with
  | nil => intro bs; rfl
  | cons m ms ih =>
    intro bs
    rw [List.foldl_cons, ih, countMessage_length]

theorem foldl_min_le_init (l : List MessageData) :
    ∀ a : ℕ, l.foldl (fun a m => min a m.Timestamp) a ≤ a := by
  induction l with
  | nil => intro a; exact le_rfl
  | cons m ms ih =>
    intro a
    exact le_trans (ih (min a m.Timestamp)) (min_le_left _ _)

theorem init_le_foldl_max (l : List MessageData) :
    ∀ a : ℕ, a ≤ l.foldl (fun a m => max a m.Timestamp) a := by
  induction l with
  | nil => intro a; exact le_rfl
  | cons m ms ih =>
    intro a
    exact le_trans (le_max_left _ _) (ih (max a m.Timestamp))

theorem map_eq_range_map_apply {α β : Type} (l : List α) (f : α → β)
    (F : ℕ → β) (n : ℕ) (hm : l.map f = (List.range n).map F)
    (i : ℕ) (hi : i < l.length) :
    f (l.get ⟨i, hi⟩) = F i := by
  have hlen : l.length = n := by
    have h := congrArg List.length hm
    simpa using h
  have h1 : (l.map f)[i]? = some (f (l.get ⟨i, hi⟩)) := by
    rw [List.getElem?_map, List.getElem?_eq_getElem hi]
    rfl
  have h2 : ((List.range n).map F)[i]? = some (F i) := by
    rw [List.getElem?_map, List.getElem?_range (by omega)]
    rfl
  rw [hm, h2] at h1
  exact (Option.some_inj.mp h1).symm

/-- Bucket layout of a nonempty BuildRateHistogram run: the bucket count
is numBucketsOf, and bucket i spans from startTime + i g to
startTime + (i+1) g. -/
theorem buildRateHistogram_layout (m0 : MessageData) (rest : List MessageData)
    (g : ℕ) :
    (BuildRateHistogram (m0 :: rest) g).Buckets.length
        = numBucketsOf
            ((m0 :: rest).foldl (fun a m => min a m.Timestamp) m0.Timestamp)
            ((m0 :: rest).foldl (fun a m => max a m.Timestamp) m0.Timestamp) g
    ∧ (BuildRateHistogram (m0 :: rest) g).Buckets.map (fun b => (b.Start, b.End))
        = (List.range (numBucketsOf
            ((m0 :: rest).foldl (fun a m => min a m.Timestamp) m0.Timestamp)
            ((m0 :: rest).foldl (fun a m => max a m.Timestamp) m0.Timestamp) g)).map
            (fun i =>
              (truncTime ((m0 :: rest).foldl (fun a m => min a m.Timestamp)
                  m0.Timestamp) g + i * g,
               truncTime ((m0 :: rest).foldl (fun a m => min a m.Timestamp)
                  m0.Timestamp) g + i * g + g)) := by
  constructor
  · show (applyRates g _).length = _
    rw [applyRates_length, foldl_countMessage_length, initBuckets_length]
  · show (applyRates g _).map _ = _
    rw [applyRates_map_startEnd, foldl_countMessage_startEnd, initBuckets,
      List.map_map]
    rfl

theorem headD_eq_get {α : Type} (l : List α) (d : α) (h : 0 < l.length) :
    l.headD d = l.get ⟨0, h⟩ := by
  cases l with
  | nil => simp at h
  | cons x xs => rfl

theorem getLastD_eq_get {α : Type} (l : List α) :
    ∀ (d : α) (h : 0 < l.length), l.getLastD d = l.get ⟨l.length - 1, by omega⟩ := by
  induction l with
  | nil => intro d h; simp at h
  | cons x xs ih =>
    intro d h
    cases xs with
    | nil => rfl
    | cons y ys =>
      rw [List.getLastD_cons, ih x (by simp)]
      rfl

/-- Exactness of the truncated span: the difference of the two truncated
endpoints is an exact multiple of g. -/
theorem trunc_span_exact (minT maxT g : ℕ) (hg : 0 < g) (hle : minT ≤ maxT) :
    truncTime minT g + (truncTime maxT g - truncTime minT g) / g * g
      = truncTime maxT g := by
  have hgne : ¬ g = 0 := by omega
  simp only [truncTime, if_neg hgne]
  have h1 : minT / g ≤ maxT / g := Nat.div_le_div_right hle
  have hsub : maxT / g * g - minT / g * g = (maxT / g - minT / g) * g := by
    rw [Nat.sub_mul]
  rw [hsub, Nat.mul_div_cancel _ hg, Nat.sub_mul]
  have := Nat.mul_le_mul_right g h1
  omega

/-- Closed form of the bucket count: because both truncated endpoints are
multiples of g, the division is exact and the count is the truncated span
divided by g, plus one. -/
theorem numBucketsOf_eq (minT maxT g : ℕ) (hg : 0 < g) (hle : minT ≤ maxT) :
    numBucketsOf minT maxT g = (truncTime maxT g - truncTime minT g) / g + 1 := by
  have hgne : ¬ g = 0 := by omega
  have h1 : minT / g ≤ maxT / g := Nat.div_le_div_right hle
  have hmul : minT / g * g ≤ maxT / g * g := Nat.mul_le_mul_right g h1
  have hsub : maxT / g * g - minT / g * g = (maxT / g - minT / g) * g := by
    rw [Nat.sub_mul]
  have hplus : maxT / g * g + g - minT / g * g = (maxT / g - minT / g) * g + g := by
    omega
  simp only [numBucketsOf, truncTime, if_neg hgne]
  rw [hplus, hsub, Nat.add_div_right _ hg, Nat.mul_div_cancel _ hg]
  simp

/-- C10: for every nonempty message list and granularity g > 0, the
buckets are chronological, contiguous and uniform: bucket i starts at
truncate(minTimestamp, g) + i g and ends g later, so consecutive buckets
abut and every bucket has width exactly g. -/
theorem C10_bucket_boundaries (messages : List MessageData) (g : ℕ)
    (hne : messages ≠ []) (_hg : 0 < g) :
    (∀ i (hi : i < (BuildRateHistogram messages g).Buckets.length),
        ((BuildRateHistogram messages g).Buckets.get ⟨i, hi⟩).Start
            = truncTime (messages.foldl (fun a m => min a m.Timestamp)
                (messages.headD ⟨"", 0, 0, 0⟩).Timestamp) g + i * g
        ∧ ((BuildRateHistogram messages g).Buckets.get ⟨i, hi⟩).End
            = ((BuildRateHistogram messages g).Buckets.get ⟨i, hi⟩).Start + g)
    ∧ ∀ i (hi1 : i + 1 < (BuildRateHistogram messages g).Buckets.length),
        ((BuildRateHistogram messages g).Buckets.get ⟨i, by omega⟩).End
          = ((BuildRateHistogram messages g).Buckets.get ⟨i + 1, hi1⟩).Start := by
  match messages, hne with
  | m0 :: rest, _ =>
    obtain ⟨hlen, hmap⟩ := buildRateHistogram_layout m0 rest g
    have key : ∀ i (hi : i < (BuildRateHistogram (m0 :: rest) g).Buckets.length),
        ((BuildRateHistogram (m0 :: rest) g).Buckets.get ⟨i, hi⟩).Start
            = truncTime ((m0 :: rest).foldl (fun a m => min a m.Timestamp)
                m0.Timestamp) g + i * g
        ∧ ((BuildRateHistogram (m0 :: rest) g).Buckets.get ⟨i, hi⟩).End
            = truncTime ((m0 :: rest).foldl (fun a m => min a m.Timestamp)
                m0.Timestamp) g + i * g + g := by
      intro i hi
      have h := map_eq_range_map_apply _ _ _ _ hmap i hi
      exact ⟨congrArg Prod.fst h, congrArg Prod.snd h⟩
    constructor
    · intro i hi
      obtain ⟨h1, h2⟩ := key i hi
      refine ⟨by simpa using h1, ?_⟩
      rw [h1, h2]
    · intro i hi1
      obtain ⟨_, h2⟩ := key i (by omega)
      obtain ⟨h3, _⟩ := key (i + 1) hi1
      rw [h2, h3]
      ring

theorem C10_bucket_boundaries_witness :
    ((BuildRateHistogram [⟨"s", 1, 1, 5⟩, ⟨"s", 2, 5, 7⟩] 2).Buckets.get
        ⟨1, by decide⟩).Start = 2
    ∧ ((BuildRateHistogram [⟨"s", 1, 1, 5⟩, ⟨"s", 2, 5, 7⟩] 2).Buckets.get
        ⟨0, by decide⟩).End
      = ((BuildRateHistogram [⟨"s", 1, 1, 5⟩, ⟨"s", 2, 5, 7⟩] 2).Buckets.get
        ⟨1, by decide⟩).Start := by
  have h := C10_bucket_boundaries [⟨"s", 1, 1, 5⟩, ⟨"s", 2, 5, 7⟩] 2
    (by decide) (by decide)
  constructor
  · have h1 := (h.1 1 (by decide)).1
    simpa [truncTime] using h1
  · exact h.2 0 (by decide)

/-- Bucket count formula as the specification text states it:
ceil((maxTime − truncate(minTime, g))/g), with a minimum of 1.  This
definition follows the words of the spec, for comparison with the code. -/
def specCeilBucketCount (minTime maxTime g : ℕ) : ℕ :=
  max ((maxTime - truncTime minTime g + g - 1) / g) 1

/-- C2 counterexample: two messages at timestamps 0 and 2 with
granularity 2.  The code builds 2 buckets, but the claimed formula
ceil((maxTime − truncatedMinTime)/g) = ceil(2/2) gives 1: the claim is
false whenever the maximum timestamp is an exact multiple of g above the
truncated minimum. -/
theorem C2_counterexample :
    (BuildRateHistogram [⟨"s", 1, 0, 1⟩, ⟨"s", 2, 2, 1⟩] 2).Buckets.length = 2
    ∧ specCeilBucketCount 0 2 2 = 1
    ∧ (BuildRateHistogram [⟨"s", 1, 0, 1⟩, ⟨"s", 2, 2, 1⟩] 2).Buckets.length
        ≠ specCeilBucketCount 0 2 2 := by
  refine ⟨by decide, by decide, by decide⟩

/-- C2 (amended): for every nonempty message list and granularity g > 0,
the buckets cover exactly [truncate(minTimestamp, g),
truncate(maxTimestamp, g) + g): the first bucket starts at the truncated
minimum, the last bucket ends at the truncated maximum plus g, and the
number of buckets is (truncate(maxTimestamp, g) − truncate(minTimestamp,
g))/g + 1 — not the ceiling formula of the claim, which undercounts by
one when the maximum timestamp is an exact multiple of g above the
truncated minimum. -/
theorem C2_amended_coverage_and_count (messages : List MessageData) (g : ℕ)
    (hne : messages ≠ []) (hg : 0 < g) :
    (BuildRateHistogram messages g).Buckets.length
        = (truncTime (messages.foldl (fun a m => max a m.Timestamp)
              (messages.headD ⟨"", 0, 0, 0⟩).Timestamp) g
           - truncTime (messages.foldl (fun a m => min a m.Timestamp)
              (messages.headD ⟨"", 0, 0, 0⟩).Timestamp) g) / g + 1
    ∧ ((BuildRateHistogram messages g).Buckets.headD {}).Start
        = truncTime (messages.foldl (fun a m => min a m.Timestamp)
            (messages.headD ⟨"", 0, 0, 0⟩).Timestamp) g
    ∧ ((BuildRateHistogram messages g).Buckets.getLastD {}).End
        = truncTime (messages.foldl (fun a m => max a m.Timestamp)
            (messages.headD ⟨"", 0, 0, 0⟩).Timestamp) g + g := by
  match messages, hne with
  | m0 :: rest, _ =>
    obtain ⟨hlen, hmap⟩ := buildRateHistogram_layout m0 rest g
    have hminmax : (m0 :: rest).foldl (fun a m => min a m.Timestamp) m0.Timestamp
        ≤ (m0 :: rest).foldl (fun a m => max a m.Timestamp) m0.Timestamp := by
      calc (m0 :: rest).foldl (fun a m => min a m.Timestamp) m0.Timestamp
          ≤ m0.Timestamp := foldl_min_le_init _ _
        _ ≤ (m0 :: rest).foldl (fun a m => max a m.Timestamp) m0.Timestamp :=
            init_le_foldl_max _ _
    have hcount := numBucketsOf_eq _ _ g hg hminmax
    have hpos : 0 < (BuildRateHistogram (m0 :: rest) g).Buckets.length := by
      rw [hlen]
      exact numBucketsOf_pos _ _ _
    refine ⟨by rw [hlen, hcount]; rfl, ?_, ?_⟩
    · rw [headD_eq_get _ _ hpos]
      have h := map_eq_range_map_apply _ _ _ _ hmap 0 hpos
      have h1 := congrArg Prod.fst h
      simpa using h1
    · rw [getLastD_eq_get _ _ hpos]
      have hilt : (BuildRateHistogram (m0 :: rest) g).Buckets.length - 1
          < (BuildRateHistogram (m0 :: rest) g).Buckets.length := by omega
      have h := map_eq_range_map_apply _ _ _ _ hmap _ hilt
      have h2 := congrArg Prod.snd h
      simp only at h2
      rw [h2]
      -- the last index is ((trunc max − trunc min)/g + 1) − 1
      rw [hlen, hcount, Nat.add_sub_cancel]
      rw [trunc_span_exact _ _ g hg hminmax]
      simp

theorem C2_amended_coverage_and_count_witness :
    (BuildRateHistogram [⟨"s", 1, 1, 5⟩, ⟨"s", 2, 5, 7⟩] 2).Buckets.length = 3
    ∧ ((BuildRateHistogram [⟨"s", 1, 1, 5⟩, ⟨"s", 2, 5, 7⟩] 2).Buckets.headD
        {}).Start = 0
    ∧ ((BuildRateHistogram [⟨"s", 1, 1, 5⟩, ⟨"s", 2, 5, 7⟩] 2).Buckets.getLastD
        {}).End = 6 := by
  have h := C2_amended_coverage_and_count [⟨"s", 1, 1, 5⟩, ⟨"s", 2, 5, 7⟩] 2
    (by decide) (by decide)
  refine ⟨?_, ?_, ?_⟩
  · rw [h.1]; decide
  · rw [h.2.1]; decide
  · rw [h.2.2]; decide

/-- R-7 percentile as the specification words it: index = p (n − 1),
with linear interpolation between the floor and ceil ranks.  This
definition follows the words of the spec, for comparison with the code. -/
def percentileR7Spec (sorted : List ℚ) (p : ℚ) : ℚ :=
  let h : ℚ := p * ((sorted.length : ℚ) - 1)
  sorted.getD (⌊h⌋).toNat 0
    + (h - ((⌊h⌋ : ℤ) : ℚ)) * (sorted.getD (⌈h⌉).toNat 0 - sorted.getD (⌊h⌋).toNat 0)

theorem percentile_eq_r7 (sorted : List ℚ) (p : ℚ) (hn : 2 ≤ sorted.length)
    (hp0 : 0 ≤ p) (hp1 : p ≤ 1) :
    percentileFloat64 sorted p = percentileR7Spec sorted p := by
  have hne0 : ¬ sorted.length = 0 := by omega
  have hne1 : ¬ sorted.length = 1 := by omega
  have hn1 : (1 : ℚ) ≤ (sorted.length : ℚ) - 1 := by
    have h2 : (2 : ℚ) ≤ (sorted.length : ℚ) := by exact_mod_cast hn
    linarith
  have hidx0 : 0 ≤ p * ((sorted.length : ℚ) - 1) :=
    mul_nonneg hp0 (by linarith)
  have hidxle : p * ((sorted.length : ℚ) - 1) ≤ (sorted.length : ℚ) - 1 := by
    calc p * ((sorted.length : ℚ) - 1)
        ≤ 1 * ((sorted.length : ℚ) - 1) :=
          mul_le_mul_of_nonneg_right hp1 (by linarith)
      _ = (sorted.length : ℚ) - 1 := one_mul _
  have hfl0 : 0 ≤ ⌊p * ((sorted.length : ℚ) - 1)⌋ := Int.floor_nonneg.mpr hidx0
  have hflle : ⌊p * ((sorted.length : ℚ) - 1)⌋ ≤ (sorted.length : ℤ) - 1 := by
    have hle : p * ((sorted.length : ℚ) - 1)
        ≤ (((sorted.length : ℤ) - 1 : ℤ) : ℚ) := by push_cast; linarith
    have hmono := Int.floor_mono hle
    simpa using hmono
  have hcast : ((⌊p * ((sorted.length : ℚ) - 1)⌋.toNat : ℕ) : ℚ)
      = ((⌊p * ((sorted.length : ℚ) - 1)⌋ : ℤ) : ℚ) := by
    exact_mod_cast congrArg (Int.cast : ℤ → ℚ) (Int.toNat_of_nonneg hfl0)
  simp only [percentileFloat64, percentileR7Spec, if_neg hne0, if_neg hne1]
  by_cases hcase : sorted.length ≤ ⌊p * ((sorted.length : ℚ) - 1)⌋.toNat + 1
  · rw [if_pos hcase]
    have hlow : ⌊p * ((sorted.length : ℚ) - 1)⌋ = (sorted.length : ℤ) - 1 := by
      omega
    have hidxeq : p * ((sorted.length : ℚ) - 1) = (sorted.length : ℚ) - 1 := by
      have hge : (((sorted.length : ℤ) - 1 : ℤ) : ℚ)
          ≤ p * ((sorted.length : ℚ) - 1) := by
        rw [← hlow]
        exact Int.floor_le _
      push_cast at hge
      linarith
    rw [hidxeq]
    have hfloor : ⌊(sorted.length : ℚ) - 1⌋ = (sorted.length : ℤ) - 1 := by
      rw [show (sorted.length : ℚ) - 1 = (((sorted.length : ℤ) - 1 : ℤ) : ℚ) by
        push_cast; ring]
      exact Int.floor_intCast _
    rw [hfloor]
    have hsub : ((sorted.length : ℚ) - 1) - (((sorted.length : ℤ) - 1 : ℤ) : ℚ)
        = 0 := by push_cast; ring
    rw [hsub, zero_mul, add_zero]
    have htn : ((sorted.length : ℤ) - 1).toNat = sorted.length - 1 := by omega
    rw [htn]
  · rw [if_neg hcase]
    by_cases hw : p * ((sorted.length : ℚ) - 1)
        - ((⌊p * ((sorted.length : ℚ) - 1)⌋ : ℤ) : ℚ) = 0
    · rw [hcast, hw]
      ring
    · have hlt : ((⌊p * ((sorted.length : ℚ) - 1)⌋ : ℤ) : ℚ)
          < p * ((sorted.length : ℚ) - 1) :=
        lt_of_le_of_ne (Int.floor_le _) (fun h => hw (by rw [h]; ring))
      have hceil : ⌈p * ((sorted.length : ℚ) - 1)⌉
          = ⌊p * ((sorted.length : ℚ) - 1)⌋ + 1 := by
        have hcl : (⌊p * ((sorted.length : ℚ) - 1)⌋ : ℤ)
            < ⌈p * ((sorted.length : ℚ) - 1)⌉ := by
          have hq : ((⌊p * ((sorted.length : ℚ) - 1)⌋ : ℤ) : ℚ)
              < ((⌈p * ((sorted.length : ℚ) - 1)⌉ : ℤ) : ℚ) :=
            lt_of_lt_of_le hlt (Int.le_ceil _)
          exact_mod_cast hq
        have hcu := Int.ceil_le_floor_add_one (p * ((sorted.length : ℚ) - 1))
        omega
      rw [hceil]
      have htn : (⌊p * ((sorted.length : ℚ) - 1)⌋ + 1).toNat
          = ⌊p * ((sorted.length : ℚ) - 1)⌋.toNat + 1 := by omega
      rw [htn, hcast]
      ring

/-- C5: percentileFloat64 computes the R-7 percentile on a sorted list:
the index is p (n − 1) with linear interpolation between the floor and
ceil ranks (shown for every p in [0, 1] on lists of two or more
entries); in particular [1,2,3,4] at p = 0.5 yields 2.5, a one-element
list yields its element, and the empty list yields 0. -/
theorem C5_percentile_r7 :
    percentileFloat64 [1, 2, 3, 4] (1/2) = 5/2
    ∧ (∀ x p : ℚ, percentileFloat64 [x] p = x)
    ∧ (∀ p : ℚ, percentileFloat64 [] p = 0)
    ∧ (∀ (sorted : List ℚ) (p : ℚ), 2 ≤ sorted.length → 0 ≤ p → p ≤ 1 →
        percentileFloat64 sorted p = percentileR7Spec sorted p) := by
  refine ⟨by norm_num [percentileFloat64], fun x p => rfl, fun p => rfl,
    percentile_eq_r7⟩

theorem C5_percentile_r7_witness :
    percentileFloat64 [1, 2, 3, 4] (1/2) = 5/2
    ∧ percentileFloat64 [3, 7] (1/2) = percentileR7Spec [3, 7] (1/2)
    ∧ percentileFloat64 [(5 : ℚ)] (9/10) = 5
    ∧ percentileFloat64 [] (1/2) = 0 := by
  have h := C5_percentile_r7
  exact ⟨h.1, h.2.2.2 [3, 7] (1/2) (by decide) (by norm_num) (by norm_num),
    h.2.1 5 (9/10), h.2.2.1 (1/2)⟩

/-- Nonempty intersection of the bucket's half-open interval
[Start, End) with the half-open query window, as the claim words it.
This definition follows the words of the spec, for comparison with the
code. -/
def overlapsHalfOpen (startTime endTime : Option ℕ) (b : Gui.RateBucket) :
    Bool :=
  let lo := match startTime with
    | some ws => max b.Start ws
    | none => b.Start
  let hi := match endTime with
    | some we => min b.End we
    | none => b.End
  decide (lo < hi)

/-- C4 counterexample: a single bucket [0, 10) against the window
[10, 20).  The half-open intervals do not intersect, so the claim says
the bucket is dropped, but the filter keeps every bucket with
End ≥ windowStart and Start ≤ windowEnd, so the bucket survives. -/
theorem C4_counterexample :
    ((Gui.filterHistogramByTime
        { Buckets := [{ Start := 0, End := 10 }], Granularity := 10 }
        (some 10) (some 20)).Buckets).length = 1
    ∧ (([{ Start := 0, End := 10 }] : List Gui.RateBucket).filter
        (overlapsHalfOpen (some 10) (some 20))).length = 0
    ∧ (Gui.filterHistogramByTime
        { Buckets := [{ Start := 0, End := 10 }], Granularity := 10 }
        (some 10) (some 20)).Buckets
      ≠ ([{ Start := 0, End := 10 }] : List Gui.RateBucket).filter
        (overlapsHalfOpen (some 10) (some 20)) := by
  refine ⟨by decide, by decide, by decide⟩

theorem keepBucket_iff (startTime endTime : Option ℕ) (b : Gui.RateBucket) :
    Gui.keepBucket startTime endTime b = true
      ↔ (∀ ws ∈ startTime, ws ≤ b.End) ∧ (∀ we ∈ endTime, b.Start ≤ we) := by
  cases startTime <;> cases endTime <;> simp [Gui.keepBucket]

/-- C4 (amended): for every histogram and optional window with at least
one bound, the time filter keeps exactly the buckets whose closed
interval [Start, End] meets the closed window — End ≥ windowStart and
Start ≤ windowEnd, so buckets that merely touch a window boundary are
retained too, unlike the half-open overlap the claim states.  Statistics
are recomputed from the retained buckets, and a window matching no
buckets yields a valid histogram with zero buckets and zeroed
statistics rather than an error. -/
theorem C4_filter_amended (hist : Gui.RateHistogram)
    (startTime endTime : Option ℕ)
    (hw : ¬ (startTime = none ∧ endTime = none)) :
    ((Gui.filterHistogramByTime hist startTime endTime).Buckets
        = hist.Buckets.filter (Gui.keepBucket startTime endTime))
    ∧ (∀ b, Gui.keepBucket startTime endTime b = true
        ↔ (∀ ws ∈ startTime, ws ≤ b.End) ∧ (∀ we ∈ endTime, b.Start ≤ we))
    ∧ (hist.Buckets.filter (Gui.keepBucket startTime endTime) = [] →
        Gui.filterHistogramByTime hist startTime endTime
          = { Buckets := [], Granularity := hist.Granularity, Stats := {} })
    ∧ (hist.Buckets.filter (Gui.keepBucket startTime endTime) ≠ [] →
        (Gui.filterHistogramByTime hist startTime endTime).Stats
          = Gui.CalculateStatsFromBuckets
              (hist.Buckets.filter (Gui.keepBucket startTime endTime))) := by
  have hbody : ∀ s e : Option ℕ, ¬ (s = none ∧ e = none) →
      Gui.filterHistogramByTime hist s e
        = (if hist.Buckets.filter (Gui.keepBucket s e) = [] then
            ({ Buckets := hist.Buckets.filter (Gui.keepBucket s e)
               Granularity := hist.Granularity
               Stats := {} } : Gui.RateHistogram)
          else
            { Buckets := hist.Buckets.filter (Gui.keepBucket s e)
              Granularity := hist.Granularity
              Stats := Gui.CalculateStatsFromBuckets
                (hist.Buckets.filter (Gui.keepBucket s e)) }) := by
    intro s e hse
    match s, e with
    | none, none => exact absurd ⟨rfl, rfl⟩ hse
    | some ws, none => rfl
    | none, some we => rfl
    | some ws, some we => rfl
  rw [hbody startTime endTime hw]
  refine ⟨?_, keepBucket_iff startTime endTime, ?_, ?_⟩
  · split
    · next hf => simp [hf]
    · rfl
  · intro hf
    rw [if_pos hf, hf]
  · intro hf
    rw [if_neg hf]

theorem C4_filter_amended_witness :
    ¬ ((some 12 : Option ℕ) = none ∧ (some 15 : Option ℕ) = none)
    ∧ (Gui.filterHistogramByTime
        { Buckets := [{ Start := 0, End := 10 }, { Start := 10, End := 20 }],
          Granularity := 10 } (some 12) (some 15)).Buckets
      = ([{ Start := 0, End := 10 }, { Start := 10, End := 20 }] :
          List Gui.RateBucket).filter (Gui.keepBucket (some 12) (some 15))
    ∧ (Gui.filterHistogramByTime
        { Buckets := [{ Start := 0, End := 10 }, { Start := 10, End := 20 }],
          Granularity := 10 } (some 12) (some 15)).Stats
      = Gui.CalculateStatsFromBuckets
          (([{ Start := 0, End := 10 }, { Start := 10, End := 20 }] :
            List Gui.RateBucket).filter (Gui.keepBucket (some 12) (some 15))) := by
  have h := C4_filter_amended
    { Buckets := [{ Start := 0, End := 10 }, { Start := 10, End := 20 }],
      Granularity := 10 } (some 12) (some 15) (by simp)
  exact ⟨by simp, h.1, h.2.2.2 (by decide)⟩

theorem chunkListGo_mem {α : Type} (factor : ℕ) (hf : factor ≠ 0) :
    ∀ (fuel : ℕ) (l : List α), ∀ run ∈ Gui.chunkListGo factor fuel l,
      run ≠ [] ∧ ∀ x ∈ run, x ∈ l := by
  intro fuel
  induction fuel with
  | zero =>
    intro l run h
    cases l <;> simp [Gui.chunkListGo] at h
  | succ n ih =>
    intro l run h
    cases l with
    | nil => simp [Gui.chunkListGo] at h
    | cons x xs =>
      simp only [Gui.chunkListGo] at h
      rcases List.mem_cons.mp h with h1 | h1
      · subst h1
        refine ⟨?_, fun y hy => List.take_subset _ _ hy⟩
        intro htake
        have h0 : min factor (x :: xs).length = 0 := by
          have hlt := congrArg List.length htake
          simpa [List.length_take] using hlt
        rcases Nat.min_eq_zero_iff.mp h0 with h1 | h1
        · exact hf h1
        · simp at h1
      · obtain ⟨h2, h3⟩ := ih _ run h1
        exact ⟨h2, fun y hy => List.drop_subset _ _ (h3 y hy)⟩

theorem chunkList_mem {α : Type} (factor : ℕ) (l : List α) (run : List α)
    (hr : run ∈ Gui.chunkList factor l) : run ≠ [] ∧ ∀ x ∈ run, x ∈ l := by
  unfold Gui.chunkList at hr
  split at hr
  · simp at hr
  · next hf => exact chunkListGo_mem factor hf l.length l run hr

theorem downsample_buckets_eq (hist : Gui.RateHistogram) (maxBuckets : ℕ)
    (useAverage : Bool) (hred : maxBuckets < hist.Buckets.length) :
    (Gui.downsampleHistogram hist maxBuckets useAverage).Buckets
      = (Gui.chunkList ((hist.Buckets.length + maxBuckets - 1) / maxBuckets)
          hist.Buckets).map (Gui.mergeRun useAverage) := by
  unfold Gui.downsampleHistogram
  rw [if_neg (not_le.mpr hred)]

theorem aggStep_count (u : Bool) (agg b : Gui.RateBucket) :
    (Gui.aggStep u agg b).Count = agg.Count + b.Count := by
  cases u <;> simp [Gui.aggStep]

theorem aggStep_seqCount (u : Bool) (agg b : Gui.RateBucket) :
    (Gui.aggStep u agg b).SeqCount = agg.SeqCount + b.SeqCount := by
  cases u <;> simp [Gui.aggStep]

theorem aggStep_bytes (u : Bool) (agg b : Gui.RateBucket) :
    (Gui.aggStep u agg b).Bytes = agg.Bytes + b.Bytes := by
  cases u <;> simp [Gui.aggStep]

theorem aggStep_start (u : Bool) (agg b : Gui.RateBucket) :
    (Gui.aggStep u agg b).Start = agg.Start := by
  cases u <;> simp [Gui.aggStep]

theorem aggStep_end (u : Bool) (agg b : Gui.RateBucket) :
    (Gui.aggStep u agg b).End = agg.End := by
  cases u <;> simp [Gui.aggStep]

theorem foldl_aggStep_count (u : Bool) (run : List Gui.RateBucket) :
    ∀ agg, (run.foldl (Gui.aggStep u) agg).Count
      = agg.Count + (run.map (·.Count)).sum := by
  induction run with
  | nil => intro agg; simp
  | cons b bs ih =>
    intro agg
    rw [List.foldl_cons, ih, aggStep_count]
    simp
    ring

theorem foldl_aggStep_seqCount (u : Bool) (run : List Gui.RateBucket) :
    ∀ agg, (run.foldl (Gui.aggStep u) agg).SeqCount
      = agg.SeqCount + (run.map (·.SeqCount)).sum := by
  induction run with
  | nil => intro agg; simp
  | cons b bs ih =>
    intro agg
    rw [List.foldl_cons, ih, aggStep_seqCount]
    simp
    ring

theorem foldl_aggStep_bytes (u : Bool) (run : List Gui.RateBucket) :
    ∀ agg, (run.foldl (Gui.aggStep u) agg).Bytes
      = agg.Bytes + (run.map (·.Bytes)).sum := by
  induction run with
  | nil => intro agg; simp
  | cons b bs ih =>
    intro agg
    rw [List.foldl_cons, ih, aggStep_bytes]
    simp
    ring

theorem aggStep_rate_false (agg b : Gui.RateBucket) :
    (Gui.aggStep false agg b).Rate = max agg.Rate b.Rate := by
  simp [Gui.aggStep]

theorem aggStep_seqRate_false (agg b : Gui.RateBucket) :
    (Gui.aggStep false agg b).SeqRate = max agg.SeqRate b.SeqRate := by
  simp [Gui.aggStep]

theorem aggStep_tput_false (agg b : Gui.RateBucket) :
    (Gui.aggStep false agg b).Throughput = max agg.Throughput b.Throughput := by
  simp [Gui.aggStep]

theorem aggStep_rate_true (agg b : Gui.RateBucket) :
    (Gui.aggStep true agg b).Rate = agg.Rate := by
  simp [Gui.aggStep]

theorem aggStep_seqRate_true (agg b : Gui.RateBucket) :
    (Gui.aggStep true agg b).SeqRate = agg.SeqRate := by
  simp [Gui.aggStep]

theorem aggStep_tput_true (agg b : Gui.RateBucket) :
    (Gui.aggStep true agg b).Throughput = agg.Throughput := by
  simp [Gui.aggStep]

theorem foldl_aggStep_rate_false (run : List Gui.RateBucket) :
    ∀ agg, (run.foldl (Gui.aggStep false) agg).Rate
      = run.foldl (fun a b => max a b.Rate) agg.Rate := by
  induction run with
  | nil => intro agg; rfl
  | cons b bs ih =>
    intro agg
    rw [List.foldl_cons, ih, aggStep_rate_false, List.foldl_cons]

theorem foldl_aggStep_seqRate_false (run : List Gui.RateBucket) :
    ∀ agg, (run.foldl (Gui.aggStep false) agg).SeqRate
      = run.foldl (fun a b => max a b.SeqRate) agg.SeqRate := by
  induction run with
  | nil => intro agg; rfl
  | cons b bs ih =>
    intro agg
    rw [List.foldl_cons, ih, aggStep_seqRate_false, List.foldl_cons]

theorem foldl_aggStep_tput_false (run : List Gui.RateBucket) :
    ∀ agg, (run.foldl (Gui.aggStep false) agg).Throughput
      = run.foldl (fun a b => max a b.Throughput) agg.Throughput := by
  induction run with
  | nil => intro agg; rfl
  | cons b bs ih =>
    intro agg
    rw [List.foldl_cons, ih, aggStep_tput_false, List.foldl_cons]

theorem foldl_aggStep_rate_true (run : List Gui.RateBucket) :
    ∀ agg, (run.foldl (Gui.aggStep true) agg).Rate = agg.Rate := by
  induction run with
  | nil => intro agg; rfl
  | cons b bs ih =>
    intro agg
    rw [List.foldl_cons, ih, aggStep_rate_true]

theorem foldl_aggStep_seqRate_true (run : List Gui.RateBucket) :
    ∀ agg, (run.foldl (Gui.aggStep true) agg).SeqRate = agg.SeqRate := by
  induction run with
  | nil => intro agg; rfl
  | cons b bs ih =>
    intro agg
    rw [List.foldl_cons, ih, aggStep_seqRate_true]

theorem foldl_aggStep_tput_true (run : List Gui.RateBucket) :
    ∀ agg, (run.foldl (Gui.aggStep true) agg).Throughput = agg.Throughput := by
  induction run with
  | nil => intro agg; rfl
  | cons b bs ih =>
    intro agg
    rw [List.foldl_cons, ih, aggStep_tput_true]

theorem le_foldl_max {α : Type} (f : α → ℚ) (l : List α) :
    ∀ a : ℚ, a ≤ l.foldl (fun acc y => max acc (f y)) a
      ∧ ∀ x ∈ l, f x ≤ l.foldl (fun acc y => max acc (f y)) a := by
  induction l with
  | nil => intro a; exact ⟨le_rfl, by simp⟩
  | cons y ys ih =>
    intro a
    constructor
    · exact le_trans (le_max_left a (f y)) (ih (max a (f y))).1
    · intro x hx
      rcases List.mem_cons.mp hx with h | h
      · subst h
        exact le_trans (le_max_right a (f x)) (ih (max a (f x))).1
      · exact (ih (max a (f y))).2 x h

theorem foldl_max_attained {α : Type} (f : α → ℚ) (l : List α) :
    ∀ a : ℚ, l.foldl (fun acc y => max acc (f y)) a = a
      ∨ ∃ x ∈ l, l.foldl (fun acc y => max acc (f y)) a = f x := by
  induction l with
  | nil => intro a; exact Or.inl rfl
  | cons y ys ih =>
    intro a
    rcases ih (max a (f y)) with h | h
    · rcases le_total a (f y) with hle | hle
      · right
        exact ⟨y, by simp, by rw [List.foldl_cons, h, max_eq_right hle]⟩
      · left
        rw [List.foldl_cons, h, max_eq_left hle]
    · obtain ⟨x, hx, hfx⟩ := h
      right
      exact ⟨x, by simp [hx], by rw [List.foldl_cons]; exact hfx⟩

theorem foldl_max_mono {α : Type} (f g : α → ℚ) (l : List α) :
    ∀ a b : ℚ, a ≤ b → (∀ x ∈ l, f x ≤ g x) →
      l.foldl (fun acc y => max acc (f y)) a
        ≤ l.foldl (fun acc y => max acc (g y)) b := by
  induction l with
  | nil => intro a b hab _; exact hab
  | cons y ys ih =>
    intro a b hab hfg
    rw [List.foldl_cons, List.foldl_cons]
    exact ih _ _ (max_le_max hab (hfg y (by simp)))
      (fun x hx => hfg x (by simp [hx]))

theorem mergeRun_false_eq (run : List Gui.RateBucket) :
    Gui.mergeRun false run
      = run.foldl (Gui.aggStep false)
          { Start := (run.headD {}).Start, End := (run.getLastD {}).End } := rfl

theorem foldl_max_zero_attained {α : Type} (f : α → ℚ) (l : List α)
    (hne : l ≠ []) (hnn : ∀ x ∈ l, 0 ≤ f x) :
    (∀ x ∈ l, f x ≤ l.foldl (fun acc y => max acc (f y)) 0)
    ∧ ∃ x ∈ l, l.foldl (fun acc y => max acc (f y)) 0 = f x := by
  refine ⟨fun x hx => (le_foldl_max f l 0).2 x hx, ?_⟩
  rcases foldl_max_attained f l 0 with h | h
  · match l, hne with
    | x :: xs, _ =>
      refine ⟨x, by simp, ?_⟩
      have hle : f x ≤ (x :: xs).foldl (fun acc y => max acc (f y)) 0 :=
        (le_foldl_max f (x :: xs) 0).2 x (by simp)
      have hge : 0 ≤ f x := hnn x (by simp)
      rw [h] at hle ⊢
      linarith
  · exact h

theorem mergeRun_false_count (run : List Gui.RateBucket) :
    (Gui.mergeRun false run).Count = (run.map (·.Count)).sum := by
  rw [mergeRun_false_eq, foldl_aggStep_count]
  simp

theorem mergeRun_false_seqCount (run : List Gui.RateBucket) :
    (Gui.mergeRun false run).SeqCount = (run.map (·.SeqCount)).sum := by
  rw [mergeRun_false_eq, foldl_aggStep_seqCount]
  simp

theorem mergeRun_false_bytes (run : List Gui.RateBucket) :
    (Gui.mergeRun false run).Bytes = (run.map (·.Bytes)).sum := by
  rw [mergeRun_false_eq, foldl_aggStep_bytes]
  simp

theorem mergeRun_false_rate (run : List Gui.RateBucket) :
    (Gui.mergeRun false run).Rate
      = run.foldl (fun a b => max a b.Rate) 0 := by
  rw [mergeRun_false_eq, foldl_aggStep_rate_false]

theorem mergeRun_false_seqRate (run : List Gui.RateBucket) :
    (Gui.mergeRun false run).SeqRate
      = run.foldl (fun a b => max a b.SeqRate) 0 := by
  rw [mergeRun_false_eq, foldl_aggStep_seqRate_false]

theorem mergeRun_false_tput (run : List Gui.RateBucket) :
    (Gui.mergeRun false run).Throughput
      = run.foldl (fun a b => max a b.Throughput) 0 := by
  rw [mergeRun_false_eq, foldl_aggStep_tput_false]

/-- Peak-preserving merge of one run: totals are the run sums and every
rate-like field is exactly the run maximum (attained on the run). -/
theorem mergeRun_peak (run : List Gui.RateBucket) (hne : run ≠ [])
    (h : ∀ b ∈ run, 0 ≤ b.Rate ∧ 0 ≤ b.SeqRate ∧ 0 ≤ b.Throughput) :
    (Gui.mergeRun false run).Count = (run.map (·.Count)).sum
    ∧ (Gui.mergeRun false run).SeqCount = (run.map (·.SeqCount)).sum
    ∧ (Gui.mergeRun false run).Bytes = (run.map (·.Bytes)).sum
    ∧ ((∀ b ∈ run, b.Rate ≤ (Gui.mergeRun false run).Rate)
        ∧ ∃ b ∈ run, (Gui.mergeRun false run).Rate = b.Rate)
    ∧ ((∀ b ∈ run, b.SeqRate ≤ (Gui.mergeRun false run).SeqRate)
        ∧ ∃ b ∈ run, (Gui.mergeRun false run).SeqRate = b.SeqRate)
    ∧ ((∀ b ∈ run, b.Throughput ≤ (Gui.mergeRun false run).Throughput)
        ∧ ∃ b ∈ run, (Gui.mergeRun false run).Throughput = b.Throughput) := by
  refine ⟨mergeRun_false_count run, mergeRun_false_seqCount run,
    mergeRun_false_bytes run, ?_, ?_, ?_⟩
  · rw [mergeRun_false_rate]
    have h2 := foldl_max_zero_attained (fun x : Gui.RateBucket => x.Rate)
      run hne (fun b hb => (h b hb).1)
    simpa using h2
  · rw [mergeRun_false_seqRate]
    have h2 := foldl_max_zero_attained (fun x : Gui.RateBucket => x.SeqRate)
      run hne (fun b hb => (h b hb).2.1)
    simpa using h2
  · rw [mergeRun_false_tput]
    have h2 := foldl_max_zero_attained (fun x : Gui.RateBucket => x.Throughput)
      run hne (fun b hb => (h b hb).2.2)
    simpa using h2

/-- C6: under the peak-preserving policy, every merged bucket sums
Count, SeqCount and Bytes over its run of source buckets, while its
Rate, SeqRate and Throughput each equal exactly the maximum of that
field over the run (an upper bound that is attained on the run). -/
theorem C6_peak_downsample (hist : Gui.RateHistogram) (maxBuckets : ℕ)
    (_hm : 0 < maxBuckets) (hred : maxBuckets < hist.Buckets.length)
    (hnn : ∀ b ∈ hist.Buckets, 0 ≤ b.Rate ∧ 0 ≤ b.SeqRate ∧ 0 ≤ b.Throughput) :
    ((Gui.downsampleHistogram hist maxBuckets false).Buckets
        = (Gui.chunkList ((hist.Buckets.length + maxBuckets - 1) / maxBuckets)
            hist.Buckets).map (Gui.mergeRun false))
    ∧ ∀ run ∈ Gui.chunkList ((hist.Buckets.length + maxBuckets - 1) / maxBuckets)
        hist.Buckets,
        (Gui.mergeRun false run).Count = (run.map (·.Count)).sum
        ∧ (Gui.mergeRun false run).SeqCount = (run.map (·.SeqCount)).sum
        ∧ (Gui.mergeRun false run).Bytes = (run.map (·.Bytes)).sum
        ∧ ((∀ b ∈ run, b.Rate ≤ (Gui.mergeRun false run).Rate)
            ∧ ∃ b ∈ run, (Gui.mergeRun false run).Rate = b.Rate)
        ∧ ((∀ b ∈ run, b.SeqRate ≤ (Gui.mergeRun false run).SeqRate)
            ∧ ∃ b ∈ run, (Gui.mergeRun false run).SeqRate = b.SeqRate)
        ∧ ((∀ b ∈ run, b.Throughput ≤ (Gui.mergeRun false run).Throughput)
            ∧ ∃ b ∈ run, (Gui.mergeRun false run).Throughput = b.Throughput) := by
  refine ⟨downsample_buckets_eq hist maxBuckets false hred, ?_⟩
  intro run hrun
  obtain ⟨hne, hsub⟩ := chunkList_mem _ _ run hrun
  exact mergeRun_peak run hne (fun b hb => hnn b (hsub b hb))

theorem mergeRun_true_eq (run : List Gui.RateBucket) :
    Gui.mergeRun true run
      = (let agg := run.foldl (Gui.aggStep true)
            { Start := (run.headD {}).Start, End := (run.getLastD {}).End }
         if 0 < ((agg.End - agg.Start : ℕ) : ℚ) / 1000000000 then
           { agg with
             Rate := (agg.Count : ℚ)
               / (((agg.End - agg.Start : ℕ) : ℚ) / 1000000000)
             SeqRate := (agg.SeqCount : ℚ)
               / (((agg.End - agg.Start : ℕ) : ℚ) / 1000000000)
             Throughput := (agg.Bytes : ℚ)
               / (((agg.End - agg.Start : ℕ) : ℚ) / 1000000000) }
         else agg) := rfl

theorem foldl_aggStep_count_le_seqCount (u : Bool) (run : List Gui.RateBucket)
    (h : ∀ b ∈ run, b.Count ≤ b.SeqCount) (agg : Gui.RateBucket)
    (hagg : agg.Count ≤ agg.SeqCount) :
    (run.foldl (Gui.aggStep u) agg).Count
      ≤ (run.foldl (Gui.aggStep u) agg).SeqCount := by
  rw [foldl_aggStep_count, foldl_aggStep_seqCount]
  have hsum : (run.map (·.Count)).sum ≤ (run.map (·.SeqCount)).sum :=
    List.sum_le_sum (fun b hb => h b hb)
  omega

/-- Both downsampling policies keep the interpolated rate at least the
observed rate on every merged bucket. -/
theorem mergeRun_wf (u : Bool) (run : List Gui.RateBucket)
    (h : ∀ b ∈ run, b.Count ≤ b.SeqCount ∧ b.Rate ≤ b.SeqRate) :
    (Gui.mergeRun u run).Rate ≤ (Gui.mergeRun u run).SeqRate := by
  cases u
  · rw [mergeRun_false_rate, mergeRun_false_seqRate]
    have h2 := foldl_max_mono (fun x : Gui.RateBucket => x.Rate)
      (fun x : Gui.RateBucket => x.SeqRate) run 0 0 le_rfl
      (fun b hb => (h b hb).2)
    simpa using h2
  · rw [mergeRun_true_eq]
    dsimp only
    split
    · next hdur =>
      dsimp only
      have hcs := foldl_aggStep_count_le_seqCount true run
        (fun b hb => (h b hb).1)
        { Start := (run.headD {}).Start, End := (run.getLastD {}).End }
        le_rfl
      exact (div_le_div_iff_of_pos_right hdur).mpr (by exact_mod_cast hcs)
    · rw [foldl_aggStep_rate_true, foldl_aggStep_seqRate_true]

theorem filterHistogramByTime_subset (hist : Gui.RateHistogram)
    (s e : Option ℕ) :
    ∀ b ∈ (Gui.filterHistogramByTime hist s e).Buckets, b ∈ hist.Buckets := by
  intro b hb
  match s, e with
  | none, none => exact hb
  | some ws, none =>
    simp only [Gui.filterHistogramByTime] at hb
    split at hb <;> exact (List.mem_filter.mp hb).1
  | none, some we =>
    simp only [Gui.filterHistogramByTime] at hb
    split at hb <;> exact (List.mem_filter.mp hb).1
  | some ws, some we =>
    simp only [Gui.filterHistogramByTime] at hb
    split at hb <;> exact (List.mem_filter.mp hb).1

theorem foldl_mem_pred {α β : Type} (P : α → Prop) (step : List α → β → List α)
    (hstep : ∀ bs x, (∀ b ∈ bs, P b) → ∀ b ∈ step bs x, P b) (l : List β) :
    ∀ bs, (∀ b ∈ bs, P b) → ∀ b ∈ l.foldl step bs, P b := by
  induction l with
  | nil => intro bs h; exact h
  | cons x xs ih => intro bs h; exact ih _ (hstep bs x h)

theorem buildSeq_wf (messages : List MessageData) (g : ℕ) :
    ∀ b ∈ (Gui.BuildRateHistogramSeq messages g).Buckets,
      b.Rate ≤ b.SeqRate := by
  match messages with
  | [] => intro b hb; simp [Gui.BuildRateHistogramSeq] at hb
  | m0 :: rest =>
    intro b hb
    obtain ⟨a, ha, rfl⟩ := List.mem_map.mp hb
    have hkey : a.Count ≤ a.SeqCount := by
      refine foldl_mem_pred (fun x : Gui.RateBucket => x.Count ≤ x.SeqCount)
        _ ?_ _ _ ?_ a ha
      · intro bs pr hp
        unfold Gui.addGapMessages
        refine foldl_mem_pred (fun x : Gui.RateBucket => x.Count ≤ x.SeqCount)
          _ ?_ _ bs hp
        intro bs2 j hp2
        exact mem_updateAt_pred
          (fun x : Gui.RateBucket => x.Count ≤ x.SeqCount)
          (fun bkt => { bkt with SeqCount := bkt.SeqCount + 1 })
          (fun x hx => le_trans hx (Nat.le_succ _)) bs2 _ hp2
      · refine foldl_mem_pred (fun x : Gui.RateBucket => x.Count ≤ x.SeqCount)
          _ ?_ _ _ ?_
        · intro bs2 m hp2
          exact mem_updateAt_pred
            (fun x : Gui.RateBucket => x.Count ≤ x.SeqCount)
            (fun bkt => { bkt with Count := bkt.Count + 1
                                   SeqCount := bkt.SeqCount + 1
                                   Bytes := bkt.Bytes + m.Size })
            (fun x hx => Nat.succ_le_succ hx) bs2 _ hp2
        · intro x hx
          obtain ⟨i, _, rfl⟩ := List.mem_map.mp hx
          exact le_rfl
    dsimp only
    rw [div_eq_mul_inv, div_eq_mul_inv]
    apply mul_le_mul_of_nonneg_right
    · exact_mod_cast hkey
    · apply inv_nonneg.mpr
      positivity

theorem downsample_wf (hist : Gui.RateHistogram) (m : ℕ) (u : Bool)
    (h : ∀ b ∈ hist.Buckets, b.Count ≤ b.SeqCount ∧ b.Rate ≤ b.SeqRate) :
    ∀ b ∈ (Gui.downsampleHistogram hist m u).Buckets, b.Rate ≤ b.SeqRate := by
  intro b hb
  unfold Gui.downsampleHistogram at hb
  split at hb
  · exact (h b hb).2
  · obtain ⟨run, hrun, rfl⟩ := List.mem_map.mp hb
    obtain ⟨_, hsub⟩ := chunkList_mem _ _ run hrun
    exact mergeRun_wf u run (fun x hx => h x (hsub x hx))

theorem extract_wf (hist : Gui.RateHistogram) (nm : String)
    (h : ∀ b ∈ hist.Buckets, ∀ d : Gui.StreamBucketData,
        b.PerStream.lookup nm = some d → d.Count ≤ d.SeqCount) :
    ∀ b ∈ (Gui.extractStreamHistogram hist nm).Buckets,
      b.Rate ≤ b.SeqRate := by
  intro b hb
  obtain ⟨a, ha, rfl⟩ := List.mem_map.mp hb
  cases hl : a.PerStream.lookup nm with
  | none => simp [hl]
  | some d =>
    have hcd := h a ha d hl
    simp only [hl]
    rw [div_eq_mul_inv, div_eq_mul_inv]
    apply mul_le_mul_of_nonneg_right
    · exact_mod_cast hcd
    · apply inv_nonneg.mpr
      positivity

/-- C3: seqRate is at least rate on every bucket the system produces or
transforms: histograms built by the sequence-interpolating builder
(modelled from the spec, its file being absent from src), every
time-filtered histogram whose input satisfies the invariant, every
downsampled histogram under either policy whose input buckets also have
SeqCount at least Count, and every per-stream extraction whose
per-stream entries have SeqCount at least Count. -/
theorem C3_seqRate_ge_rate :
    (∀ (messages : List MessageData) (g : ℕ),
        ∀ b ∈ (Gui.BuildRateHistogramSeq messages g).Buckets,
          b.Rate ≤ b.SeqRate)
    ∧ (∀ (hist : Gui.RateHistogram) (s e : Option ℕ),
        (∀ b ∈ hist.Buckets, b.Rate ≤ b.SeqRate) →
        ∀ b ∈ (Gui.filterHistogramByTime hist s e).Buckets,
          b.Rate ≤ b.SeqRate)
    ∧ (∀ (hist : Gui.RateHistogram) (maxBuckets : ℕ) (useAverage : Bool),
        (∀ b ∈ hist.Buckets, b.Count ≤ b.SeqCount ∧ b.Rate ≤ b.SeqRate) →
        ∀ b ∈ (Gui.downsampleHistogram hist maxBuckets useAverage).Buckets,
          b.Rate ≤ b.SeqRate)
    ∧ (∀ (hist : Gui.RateHistogram) (streamName : String),
        (∀ b ∈ hist.Buckets, ∀ d : Gui.StreamBucketData,
          b.PerStream.lookup streamName = some d → d.Count ≤ d.SeqCount) →
        ∀ b ∈ (Gui.extractStreamHistogram hist streamName).Buckets,
          b.Rate ≤ b.SeqRate) :=
  ⟨buildSeq_wf,
   fun hist s e hwf b hb => hwf b (filterHistogramByTime_subset hist s e b hb),
   downsample_wf,
   extract_wf⟩

/-- Concrete buckets and histogram used by witnesses. -/
def sampleBucketA : Gui.RateBucket :=
  { Start := 0, End := 5, Count := 2, SeqCount := 3, Bytes := 4,
    Rate := 2, SeqRate := 3, Throughput := 4,
    PerStream := [("s", { Count := 1, SeqCount := 2, Bytes := 3 })] }

def sampleBucketB : Gui.RateBucket :=
  { Start := 5, End := 10, Count := 6, SeqCount := 7, Bytes := 8,
    Rate := 6, SeqRate := 7, Throughput := 8 }

def sampleHistogram : Gui.RateHistogram :=
  { Buckets := [sampleBucketA, sampleBucketB], Granularity := 5 }

theorem C6_peak_downsample_witness :
    ((Gui.downsampleHistogram sampleHistogram 1 false).Buckets
        = (Gui.chunkList 2 sampleHistogram.Buckets).map (Gui.mergeRun false))
    ∧ (Gui.mergeRun false [sampleBucketA, sampleBucketB]).Count = 8
    ∧ ((∀ b ∈ [sampleBucketA, sampleBucketB],
          b.Rate ≤ (Gui.mergeRun false [sampleBucketA, sampleBucketB]).Rate)
        ∧ ∃ b ∈ [sampleBucketA, sampleBucketB],
            (Gui.mergeRun false [sampleBucketA, sampleBucketB]).Rate = b.Rate) := by
  have h := C6_peak_downsample sampleHistogram 1 (by decide) (by decide) (by
    intro b hb
    have hb2 : b = sampleBucketA ∨ b = sampleBucketB := by
      simpa [sampleHistogram] using hb
    rcases hb2 with rfl | rfl <;>
      exact ⟨by decide, by decide, by decide⟩)
  have hmem : [sampleBucketA, sampleBucketB]
      ∈ Gui.chunkList ((sampleHistogram.Buckets.length + 1 - 1) / 1)
          sampleHistogram.Buckets := by decide
  have hm := h.2 [sampleBucketA, sampleBucketB] hmem
  refine ⟨h.1, ?_, hm.2.2.2.1⟩
  rw [hm.1]
  decide

theorem C3_seqRate_ge_rate_witness :
    (∀ b ∈ (Gui.BuildRateHistogramSeq
        [⟨"s", 100, 0, 1⟩, ⟨"s", 105, 4, 1⟩] 1).Buckets, b.Rate ≤ b.SeqRate)
    ∧ (∀ b ∈ (Gui.filterHistogramByTime sampleHistogram
        (some 0) (some 7)).Buckets, b.Rate ≤ b.SeqRate)
    ∧ (∀ b ∈ (Gui.downsampleHistogram sampleHistogram 1 true).Buckets,
        b.Rate ≤ b.SeqRate)
    ∧ (∀ b ∈ (Gui.extractStreamHistogram sampleHistogram "s").Buckets,
        b.Rate ≤ b.SeqRate) := by
  have h := C3_seqRate_ge_rate
  refine ⟨h.1 _ 1, h.2.1 _ _ _ ?_, h.2.2.1 _ _ _ ?_, h.2.2.2 _ _ ?_⟩
  · intro b hb
    have hb2 : b = sampleBucketA ∨ b = sampleBucketB := by
      simpa [sampleHistogram] using hb
    rcases hb2 with rfl | rfl <;> decide
  · intro b hb
    have hb2 : b = sampleBucketA ∨ b = sampleBucketB := by
      simpa [sampleHistogram] using hb
    rcases hb2 with rfl | rfl <;> exact ⟨by decide, by decide⟩
  · intro b hb d hld
    have hb2 : b = sampleBucketA ∨ b = sampleBucketB := by
      simpa [sampleHistogram] using hb
    rcases hb2 with rfl | rfl
    · simp only [sampleBucketA, List.lookup] at hld
      split at hld
      · cases hld
        decide
      · cases hld
    · simp only [sampleBucketB, List.lookup] at hld
      cases hld

/-- C9: for an empty message list and any granularity, BuildRateHistogram
returns a valid histogram with zero buckets and zero-valued statistics
(not an error). -/
theorem C9_buildRateHistogram_empty (g : ℕ) :
    (BuildRateHistogram [] g).Buckets = []
    ∧ (BuildRateHistogram [] g).Granularity = g
    ∧ (BuildRateHistogram [] g).Stats = {}
    ∧ (BuildRateHistogram [] g).Stats.TotalMessages = 0
    ∧ (BuildRateHistogram [] g).Stats.TotalBytes = 0
    ∧ (BuildRateHistogram [] g).Stats.AvgRate = 0
    ∧ (BuildRateHistogram [] g).Stats.MaxRate = 0
    ∧ (BuildRateHistogram [] g).Stats.TotalBuckets = 0 :=
  ⟨rfl, rfl, rfl, rfl, rfl, rfl, rfl, rfl⟩

/-- C7: downsampling with a target at least the current bucket count is
the identity: the histogram is returned unchanged. -/
theorem C7_downsample_identity (hist : Gui.RateHistogram) (maxBuckets : ℕ)
    (useAverage : Bool) (h : hist.Buckets.length ≤ maxBuckets) :
    Gui.downsampleHistogram hist maxBuckets useAverage = hist := by
  unfold Gui.downsampleHistogram
  rw [if_pos h]

theorem C7_downsample_identity_witness :
    (({ Buckets := [{}, {}], Granularity := 7 } : Gui.RateHistogram).Buckets.length ≤ 2)
    ∧ Gui.downsampleHistogram { Buckets := [{}, {}], Granularity := 7 } 2 false
        = { Buckets := [{}, {}], Granularity := 7 } :=
  ⟨by decide, C7_downsample_identity _ 2 false (by decide)⟩

/-- C8: downsampling that actually reduces the histogram never recomputes
statistics: the Stats field of the result is the Stats field of the
input, although buckets and granularity change. -/
theorem C8_downsample_preserves_stats (hist : Gui.RateHistogram)
    (maxBuckets : ℕ) (useAverage : Bool)
    (hred : maxBuckets < hist.Buckets.length) :
    (Gui.downsampleHistogram hist maxBuckets useAverage).Stats = hist.Stats := by
  unfold Gui.downsampleHistogram
  rw [if_neg (not_le.mpr hred)]

theorem C8_downsample_preserves_stats_witness :
    (1 < ({ Buckets := [{}, {}], Granularity := 7,
            Stats := { TotalMessages := 42 } } : Gui.RateHistogram).Buckets.length)
    ∧ (Gui.downsampleHistogram
        { Buckets := [{}, {}], Granularity := 7, Stats := { TotalMessages := 42 } }
        1 true).Stats
      = ({ TotalMessages := 42 } : Gui.RateStatistics) :=
  ⟨by decide, C8_downsample_preserves_stats _ 1 true (by decide)⟩

end JsTraffic
